import Mathlib

/-!
Shallow embedding of the "Last Trick" card game engine (game.js and ai.js):
the Card/Deck model, the GameState round/trick state machine, the settings
loader, and the Grandmaster AI strategy.  JavaScript strings for suits,
ranks and players are modelled by inductive types; the nullable fields
(leadCard, followCard, leadPlayer, currentPlayer) by Option; the random
shuffle by an explicit shuffled-deck parameter.
-/

set_option maxRecDepth 4096

/-- Suit of a card, mirroring the strings in Deck.initialize. -/
inductive Suit
  | clubs
  | diamonds
  | hearts
  | spades
deriving DecidableEq, Repr

/-- Rank of a card, mirroring the rank strings in Deck.initialize
(listed there in ascending order 2 .. ace). -/
inductive Rank
  | n2
  | n3
  | n4
  | n5
  | n6
  | n7
  | n8
  | n9
  | n10
  | jack
  | queen
  | king
  | ace
deriving DecidableEq, Repr

/-- A playing card: suit and rank, as in the Card class. -/
structure Card where
  suit : Suit
  rank : Rank
deriving DecidableEq, Repr

/-- Card.getValue from game.js: numeric comparison value of the rank
(2..10 are themselves, jack 11, queen 12, king 13, ace 14). -/
def Card.getValue (c : Card) : Nat :=
  match c.rank with
  | .n2 => 2
  | .n3 => 3
  | .n4 => 4
  | .n5 => 5
  | .n6 => 6
  | .n7 => 7
  | .n8 => 8
  | .n9 => 9
  | .n10 => 10
  | .jack => 11
  | .queen => 12
  | .king => 13
  | .ace => 14

/-- The two sides, mirroring the strings 'player' and 'ai'. -/
inductive Player
  | player
  | ai
deriving DecidableEq, Repr

/-- The opposite side, mirroring the ternary
(x === 'player' ? 'ai' : 'player') used throughout the source. -/
def Player.other : Player → Player
  | .player => .ai
  | .ai => .player

/-- The rank strings of Deck.initialize, in source (ascending) order. -/
def ranksList : List Rank :=
  [.n2, .n3, .n4, .n5, .n6, .n7, .n8, .n9, .n10, .jack, .queen, .king, .ace]

/-- The suit strings of Deck.initialize, in source order. -/
def suitsList : List Suit :=
  [.clubs, .diamonds, .hearts, .spades]

/-- Deck.initialize from game.js: the 52 cards, suits outer loop and
ranks inner loop, in source order. -/
def fullDeck : List Card :=
  suitsList.flatMap (fun s => ranksList.map (fun r => ⟨s, r⟩))

/-- A resolved trick record as pushed onto trickHistory by evaluateTrick. -/
structure TrickRecord where
  trickNumber : Nat
  leadCard : Card
  followCard : Card
  leadPlayer : Player
  winner : Player
deriving DecidableEq, Repr

/-- The GameState aggregate from game.js.  Nullable JS fields are Options.
scoreGoal is a JS number that parseInt may turn into NaN, modelled as
Option Int with none standing for NaN.  soundEnabled is undefined until
loadSettings assigns it, hence Option Bool.  The Deck object is modelled
by its card list. -/
structure GameState where
  deck : List Card
  playerHand : List Card
  aiHand : List Card
  playerScore : Nat
  aiScore : Nat
  scoreGoal : Option Int
  currentTrick : Nat
  leadCard : Option Card
  followCard : Option Card
  leadPlayer : Option Player
  currentPlayer : Option Player
  playedCards : List (Card × Player)
  trickHistory : List TrickRecord
  gameActive : Bool
  roundActive : Bool
  aiDifficulty : String
  selectedCardBack : String
  soundEnabled : Option Bool
deriving Repr

/-- JS truthiness of a value read from localStorage: null and the empty
string are falsy, every other string is truthy. -/
def jsTruthy : Option String → Bool
  | none => false
  | some s => s ≠ ""

/-- Whitespace characters skipped by parseInt. -/
def isJsSpace (c : Char) : Bool :=
  c = ' ' ∨ c = '\t' ∨ c = '\n' ∨ c = '\r'

/-- Decimal digit test used by the parseInt model. -/
def isDigitChar (c : Char) : Bool :=
  decide ('0' ≤ c) && decide (c ≤ '9')

/-- ECMAScript parseInt(s) restricted to radix-10 inputs: skip leading
whitespace, optional sign, then the longest leading run of decimal
digits; none models the NaN result when no digit is found.  The 0x hex
prefix form is not modelled (never exercised by the settings values). -/
def jsParseInt (str : String) : Option Int :=
  let cs := str.toList.dropWhile isJsSpace
  let signAndRest : Int × List Char :=
    match cs with
    | '-' :: t => (-1, t)
    | '+' :: t => (1, t)
    | t => (1, t)
  let digits := signAndRest.2.takeWhile isDigitChar
  if digits = [] then none
  else some (signAndRest.1 * (digits.foldl (fun acc c => acc * 10 + (c.toNat - 48)) 0 : Nat))

/-- GameState.loadSettings from game.js, with localStorage modelled as a
partial map from keys to stored strings.  The first three keys use JS
truthiness (if (savedX)); soundEnabled uses an explicit null check. -/
def GameState.loadSettings (s : GameState) (store : String → Option String) : GameState :=
  let s1 := if jsTruthy (store "aiDifficulty")
            then { s with aiDifficulty := (store "aiDifficulty").getD s.aiDifficulty }
            else s
  let s2 := if jsTruthy (store "cardBack")
            then { s1 with selectedCardBack := (store "cardBack").getD s1.selectedCardBack }
            else s1
  let s3 := if jsTruthy (store "scoreGoal")
            then { s2 with scoreGoal := jsParseInt ((store "scoreGoal").getD "") }
            else s2
  match store "soundEnabled" with
  | some v => { s3 with soundEnabled := some (v = "true") }
  | none => s3

/-- The GameState constructor from game.js: field initializers followed by
the loadSettings call on the ambient storage.  The fresh Deck holds the
52 cards in initialization order. -/
def GameState.new (store : String → Option String) : GameState :=
  GameState.loadSettings
    { deck := fullDeck
      playerHand := []
      aiHand := []
      playerScore := 0
      aiScore := 0
      scoreGoal := some 5
      currentTrick := 0
      leadCard := none
      followCard := none
      leadPlayer := none
      currentPlayer := none
      playedCards := []
      trickHistory := []
      gameActive := false
      roundActive := false
      aiDifficulty := "medium"
      selectedCardBack := "blue.svg"
      soundEnabled := none } store

/-- GameState.startNewRound from game.js.  The deck is reinitialized and
Fisher-Yates shuffled; the shuffle's randomness is modelled by passing
the post-shuffle ordering of the 52 cards as the parameter.  deal(5)
splices the first five cards off the deck, first into playerHand and
then into aiHand; trick and lead state are reset and, as the source
comment says, the player always goes first. -/
def GameState.startNewRound (s : GameState) (shuffled : List Card) : GameState :=
  { s with
    deck := (shuffled.drop 5).drop 5
    playerHand := shuffled.take 5
    aiHand := (shuffled.drop 5).take 5
    currentTrick := 1
    leadCard := none
    followCard := none
    playedCards := []
    trickHistory := []
    leadPlayer := some .player
    currentPlayer := some .player
    gameActive := true
    roundActive := true }

/-- GameState.canPlayCard from game.js: false when it is not the acting
player's turn; any card when leading; when following, a card of the lead
suit is required exactly when the hand holds one.  (Membership of the
card in the hand is not checked.) -/
def GameState.canPlayCard (s : GameState) (card : Card) (p : Player) : Bool :=
  if s.currentPlayer ≠ some p then false
  else
    match s.leadCard with
    | none => true
    | some lc =>
      let hand := if p = .player then s.playerHand else s.aiHand
      if hand.any (fun c => c.suit = lc.suit)
      then card.suit = lc.suit
      else true

/-- The findIndex-plus-splice removal in GameState.playCard: delete the
first card whose suit and rank both match, leaving the hand unchanged
when no card matches (findIndex returned -1). -/
def removeFirstCard : List Card → Card → List Card
  | [], _ => []
  | c :: cs, card =>
    if c.suit = card.suit ∧ c.rank = card.rank then cs
    else c :: removeFirstCard cs card

/-- The winner computation inside GameState.evaluateTrick: when the follow
card matches the lead suit the higher value wins (the follower on a value
tie, per the source ternary); an off-suit follow loses to the leader. -/
def trickWinner (lc fc : Card) (lp : Player) : Player :=
  if fc.suit = lc.suit then
    if lc.getValue > fc.getValue then lp else lp.other
  else lp

/-- GameState.evaluateTrick from game.js: append the resolved trick record
to trickHistory; on trick 5 award one point to the winner and end the
round, otherwise hand the lead (and the turn) to the winner and advance
the trick number.  The on-table card slots are deliberately not cleared.
The catch-all branch models the states in which the source would crash
dereferencing a null field; it is unreachable from playCard. -/
def GameState.evaluateTrick (s : GameState) : GameState × String :=
  match s.leadCard, s.followCard, s.leadPlayer with
  | some lc, some fc, some lp =>
    let winner := trickWinner lc fc lp
    let s1 := { s with
      trickHistory := s.trickHistory ++
        [({ trickNumber := s.currentTrick, leadCard := lc, followCard := fc,
            leadPlayer := lp, winner := winner : TrickRecord })] }
    if s1.currentTrick = 5 then
      ((if winner = .player then
          { s1 with playerScore := s1.playerScore + 1, gameActive := false }
        else
          { s1 with aiScore := s1.aiScore + 1, gameActive := false } : GameState), "game_over")
    else
      ({ s1 with
          leadPlayer := some winner
          currentPlayer := some winner
          currentTrick := s1.currentTrick + 1 }, "trick_complete")
  | _, _, _ => (s, "error")

/-- GameState.playCard from game.js: fail closed on canPlayCard, splice the
card out of the acting hand, then either record the lead and flip the
turn, or record the follow and synchronously evaluate the trick.  The
Bool is the source's boolean return value. -/
def GameState.playCard (s : GameState) (card : Card) (p : Player) : GameState × Bool :=
  if s.canPlayCard card p then
    let s1 := if p = .player
              then { s with playerHand := removeFirstCard s.playerHand card }
              else { s with aiHand := removeFirstCard s.aiHand card }
    match s1.leadCard with
    | none =>
      ({ s1 with
          leadCard := some card
          leadPlayer := some p
          playedCards := s1.playedCards ++ [(card, p)]
          currentPlayer := some p.other }, true)
    | some _ =>
      ((({ s1 with
            followCard := some card
            playedCards := s1.playedCards ++ [(card, p)] }).evaluateTrick).1, true)
  else (s, false)

/-- GameState.clearTrick from game.js: empty the two on-table card slots
and the playedCards list (called by the UI once a resolved trick has been
displayed). -/
def GameState.clearTrick (s : GameState) : GameState :=
  { s with leadCard := none, followCard := none, playedCards := [] }

/-- GameState.getValidCards from game.js: the full hand when leading, the
same-suit subset when following and it is nonempty, the full hand
otherwise. -/
def GameState.getValidCards (s : GameState) (p : Player) : List Card :=
  let hand := if p = .player then s.playerHand else s.aiHand
  match s.leadCard with
  | none => hand
  | some lc =>
    let sameSuit := hand.filter (fun c => c.suit = lc.suit)
    if sameSuit.length > 0 then sameSuit else hand

/-- The Math.max(...values) spread in handQualifiesForRedeal: a fold of
binary max over the hand's values starting from minus infinity, modelled
with WithBot Nat. -/
def jsMaxValue (hand : List Card) : WithBot Nat :=
  hand.foldl (fun m c => max m (c.getValue : WithBot Nat)) ⊥

/-- GameState.handQualifiesForRedeal from game.js: the highest card value
in the hand (minus infinity for an empty hand) is at most 9. -/
def GameState.handQualifiesForRedeal (hand : List Card) : Bool :=
  jsMaxValue hand ≤ (9 : WithBot Nat)

/-- AI.getLowestCard from ai.js: reduce keeping the strictly smaller value,
so the first-encountered card wins value ties; none models the TypeError
a reduce over an empty array would raise. -/
def getLowestCard : List Card → Option Card
  | [] => none
  | c :: cs =>
    some (cs.foldl (fun lowest card =>
      if card.getValue < lowest.getValue then card else lowest) c)

/-- AI.getHighestCard from ai.js, dually. -/
def getHighestCard : List Card → Option Card
  | [] => none
  | c :: cs =>
    some (cs.foldl (fun highest card =>
      if card.getValue > highest.getValue then card else highest) c)

/-- The suit keys of AI.groupBySuit in JS object insertion order: first
occurrence order of each suit in the card list. -/
def suitsInOrder (cards : List Card) : List Suit :=
  cards.foldl (fun acc c => if acc.contains c.suit then acc else acc ++ [c.suit]) []

/-- AI.updatePlayedCards from ai.js: every lead and follow card of the
resolved tricks, in history order, then the current lead card if any. -/
def playedCardsOf (g : GameState) : List Card :=
  (g.trickHistory.foldl (fun acc t => acc ++ [t.leadCard, t.followCard]) []) ++
    (match g.leadCard with | some c => [c] | none => [])

/-- AI.updateOpponentVoids from ai.js: the lead suits of resolved tricks
the AI led in which the player followed off suit.  The source stores them
in a Set; only membership is ever queried, so a list with possible
duplicates is an adequate model. -/
def opponentVoidSuits (g : GameState) : List Suit :=
  g.trickHistory.foldl (fun acc t =>
    if t.leadPlayer = .ai ∧ t.followCard.suit ≠ t.leadCard.suit
    then acc ++ [t.leadCard.suit] else acc) []

/-- AI.calculateWinProbability from ai.js: card value, plus 3 per higher
same-suit card already played, plus 20 when the opponent is void in the
suit, plus 5 for an ace and 3 for a king. -/
def calculateWinProbability (g : GameState) (card : Card) : Int :=
  let base : Int := card.getValue
  let higherPlayed := ((playedCardsOf g).filter (fun c =>
    c.suit = card.suit ∧ c.getValue > card.getValue)).length
  let s1 := base + higherPlayed * 3
  let s2 := if (opponentVoidSuits g).contains card.suit then s1 + 20 else s1
  let s3 := if card.getValue = 14 then s2 + 5 else s2
  if card.getValue = 13 then s3 + 3 else s3

/-- AI.chooseBestWinningSuit from ai.js: walk the suits in insertion
order, score the highest card of each, keep the first strict improvement
over the running best (initially -1); fall back to the overall highest
card when no suit produced a candidate. -/
def chooseBestWinningSuit (g : GameState) (validCards : List Card) : Option Card :=
  let result := (suitsInOrder validCards).foldl (fun best su =>
    match getHighestCard (validCards.filter (fun c => c.suit = su)) with
    | none => best
    | some highest =>
      let score := calculateWinProbability g highest
      if score > best.2 then (some highest, score) else best) ((none : Option Card), (-1 : Int))
  match result.1 with
  | some c => some c
  | none => getHighestCard validCards

/-- AI.grandmasterTrick5 from ai.js: when leading, the lowest card of a
suit the opponent is void in if one exists, else the best-scoring suit's
highest card; when following, the lowest winning same-suit card, else the
lowest same-suit card, else the lowest card overall. -/
def grandmasterTrick5 (g : GameState) (validCards : List Card) (isLeading : Bool) :
    Option Card :=
  if isLeading then
    let voidSuitCards := validCards.filter (fun c => (opponentVoidSuits g).contains c.suit)
    if voidSuitCards.length > 0 then getLowestCard voidSuitCards
    else chooseBestWinningSuit g validCards
  else
    match g.leadCard with
    | none => none
    | some lc =>
      let sameSuit := validCards.filter (fun c => c.suit = lc.suit)
      if sameSuit.length > 0 then
        let winningCards := sameSuit.filter (fun c => c.getValue > lc.getValue)
        if winningCards.length > 0 then getLowestCard winningCards
        else getLowestCard sameSuit
      else getLowestCard validCards

/-- The singleton-dumping loop of AI.grandmasterLead: the first suit (in
the valid cards' insertion order) whose hand group holds exactly one
card, yielding that card. -/
def firstSingleton (suits : List Suit) (hand : List Card) : Option Card :=
  match suits with
  | [] => none
  | su :: rest =>
    let hs := hand.filter (fun c => c.suit = su)
    if hs.length = 1 then hs.head? else firstSingleton rest hand

/-- The sorted-access step of AI.grandmasterLead's multi-card-suit branch:
the highest card per multi-card suit in suit insertion order, then the
first entry of the stable sort by highest value — ascending (asc true)
for tricks 1-2, descending for tricks 3-4 — which is the first candidate
attaining the extreme value. -/
def pickMultiSuitHighest (asc : Bool) (suits : List Suit) (hand : List Card) :
    Option Card :=
  let cands := suits.filterMap (fun su =>
    let group := hand.filter (fun c => c.suit = su)
    if group.length ≥ 2 then getHighestCard group else none)
  match cands with
  | [] => none
  | c :: cs =>
    some (cs.foldl (fun best x =>
      if (if asc then x.getValue < best.getValue else x.getValue > best.getValue)
      then x else best) c)

/-- Stable insertion of a card into a value-ascending list (a card goes
after existing cards of equal value), modelling JS stable sort order. -/
def insertAsc (c : Card) : List Card → List Card
  | [] => [c]
  | d :: ds => if d.getValue ≤ c.getValue then d :: insertAsc c ds else c :: d :: ds

/-- The [...validCards].sort((a, b) => a.getValue() - b.getValue()) of the
grandmaster lead fallback: stable ascending sort by value. -/
def sortByValueAsc (cards : List Card) : List Card :=
  cards.foldr insertAsc []

/-- AI.grandmasterLead from ai.js for tricks 1-4: dump a singleton suit if
any, else lead the highest card of the weakest (tricks 1-2) or strongest
(tricks 3-4) multi-card suit, else fall back to an aggression index into
the value-sorted valid cards.  The JS float expression
floor((trickNumber / 5) * (length - 1)) equals the Nat division
trickNumber * (length - 1) / 5 on every input this branch can see. -/
def grandmasterLead (_g : GameState) (validCards hand : List Card) (trickNumber : Nat) :
    Option Card :=
  match firstSingleton (suitsInOrder validCards) hand with
  | some c => some c
  | none =>
    match pickMultiSuitHighest (trickNumber ≤ 2) (suitsInOrder hand) hand with
    | some c => some c
    | none =>
      let sorted := sortByValueAsc validCards
      let aggressionIndex := trickNumber * (sorted.length - 1) / 5
      sorted.get? (min aggressionIndex (sorted.length - 1))

/-- AI.grandmasterFollow from ai.js for tricks 1-4: with same-suit cards
available, take the trick with the lowest winning card when possible
(never duck), else dump the highest same-suit card; off suit, dump the
lowest card.  The source's unused trickNumber parameter is dropped; none
models the crash on a null lead card, unreachable at the call site. -/
def grandmasterFollow (g : GameState) (validCards : List Card) : Option Card :=
  match g.leadCard with
  | none => none
  | some lc =>
    let sameSuit := validCards.filter (fun c => c.suit = lc.suit)
    if sameSuit.length > 0 then
      let winningCards := sameSuit.filter (fun c => c.getValue > lc.getValue)
      if winningCards.length > 0 then getLowestCard winningCards
      else getHighestCard sameSuit
    else getLowestCard validCards

/-- AI.chooseCardGrandmaster from ai.js: the branch AI.chooseCard takes
when aiDifficulty is the grandmaster string.  updatePlayedCards and
updateOpponentVoids recompute their sets from the game state, so the
decision is the pure function of state modelled here. -/
def chooseCardGrandmaster (g : GameState) : Option Card :=
  let validCards := g.getValidCards .ai
  let trickNumber := g.currentTrick
  let isLeading := g.leadCard.isNone
  let hand := g.aiHand
  if trickNumber = 5 then grandmasterTrick5 g validCards isLeading
  else if isLeading then grandmasterLead g validCards hand trickNumber
  else grandmasterFollow g validCards

/-- The hand selected by the source ternary
(player === 'player' ? this.playerHand : this.aiHand). -/
def handOf (s : GameState) (p : Player) : List Card :=
  if p = .player then s.playerHand else s.aiHand

/-- The cards of the current, not-yet-resolved trick.  The source keeps a
resolved trick's two cards in playedCards until clearTrick so the UI can
display them, but from resolution on they are accounted for by the
trickHistory record (followCard is non-null exactly on that display
window), so only an unresolved trick's cards are in flight. -/
def inFlightCards (s : GameState) : Nat :=
  match s.followCard with
  | none => s.playedCards.length
  | some _ => 0

/-- The states of a round reachable through the public interface as the
UI drives it, before any redeal: a round starts with startNewRound on a
shuffled 52-card deck; a play is attempted with a card of the acting
player's own hand while no resolved trick is awaiting clearTrick (the UI
disables input and schedules clearTrick before the next play); clearTrick
is called once a trick has resolved. -/
inductive Reachable : GameState → Prop
  | start (s : GameState) (d : List Card) (hd : d.Perm fullDeck) :
      Reachable (s.startNewRound d)
  | play (s : GameState) (card : Card) (p : Player) (hs : Reachable s)
      (hmem : card ∈ handOf s p) (hclear : s.followCard = none) :
      Reachable (s.playCard card p).1
  | clear (s : GameState) (hs : Reachable s) (hf : s.followCard ≠ none) :
      Reachable s.clearTrick

/-- The empty localStorage: a fresh browser profile. -/
def emptyStore : String → Option String := fun _ => none

/-- No side is its own opposite. -/
theorem Player.ne_other (p : Player) : p ≠ p.other := by
  cases p <;> simp [Player.other]

/-- Card values determine ranks: getValue is injective on ranks. -/
theorem getValue_rank_inj (c d : Card) (h : c.getValue = d.getValue) : c.rank = d.rank := by
  cases c with
  | mk cs cr =>
    cases d with
    | mk ds dr =>
      cases cr <;> cases dr <;> simp_all [Card.getValue]

/-- Same-suit distinct cards have distinct values. -/
theorem getValue_ne_of_same_suit_ne (lc fc : Card) (hsuit : fc.suit = lc.suit)
    (hne : fc ≠ lc) : fc.getValue ≠ lc.getValue := by
  intro h
  apply hne
  have hr : fc.rank = lc.rank := getValue_rank_inj fc lc h
  cases fc
  cases lc
  simp_all

/-- A convenient state for instantiating the evaluateTrick theorems: a
mid-round position with 5 of hearts led by the player and 9 of clubs
followed by the AI. -/
def trickState : GameState :=
  { GameState.new emptyStore with
      playerHand := [⟨.spades, .ace⟩]
      aiHand := [⟨.diamonds, .n3⟩]
      leadCard := some ⟨.hearts, .n5⟩
      followCard := some ⟨.hearts, .n9⟩
      leadPlayer := some .player
      currentPlayer := some .ai
      currentTrick := 2
      gameActive := true
      roundActive := true }

/-- C1: evaluateTrick appends one resolved record whose winner is the lead
player whenever the follow card is off suit, and otherwise the holder of
the greater value, under the value order ace 14 down to 2. -/
theorem evaluateTrick_winner_spec (s : GameState) (lc fc : Card) (lp : Player)
    (h1 : s.leadCard = some lc) (h2 : s.followCard = some fc)
    (h3 : s.leadPlayer = some lp) :
    ∃ rec : TrickRecord,
      (s.evaluateTrick).1.trickHistory = s.trickHistory ++ [rec] ∧
      rec.leadCard = lc ∧ rec.followCard = fc ∧ rec.leadPlayer = lp ∧
      (fc.suit ≠ lc.suit → rec.winner = lp) ∧
      (fc.suit = lc.suit → fc ≠ lc →
        ((rec.winner = lp ↔ fc.getValue < lc.getValue) ∧
         (rec.winner = lp.other ↔ lc.getValue < fc.getValue))) ∧
      (∀ su : Suit,
        ranksList.map (fun r => Card.getValue ⟨su, r⟩) =
          [2, 3, 4, 5, 6, 7, 8, 9, 10, 11, 12, 13, 14]) := by
  refine ⟨{ trickNumber := s.currentTrick, leadCard := lc, followCard := fc,
            leadPlayer := lp, winner := trickWinner lc fc lp }, ?_, rfl, rfl, rfl, ?_, ?_, ?_⟩
  · simp only [GameState.evaluateTrick, h1, h2, h3]
    split
    · split <;> simp
    · simp
  · intro hsuit
    simp [trickWinner, hsuit]
  · intro hsuit hne
    have hval := getValue_ne_of_same_suit_ne lc fc hsuit hne
    have hother := Player.ne_other lp
    simp only [trickWinner, hsuit, if_pos rfl, if_true, gt_iff_lt]
    rcases Nat.lt_or_ge fc.getValue lc.getValue with hlt | hge
    · simp [if_pos hlt, hlt, Nat.not_lt.mpr (Nat.le_of_lt hlt), hother]
    · have hgt : lc.getValue < fc.getValue := Nat.lt_of_le_of_ne hge (fun h => hval h.symm)
      simp [if_neg (Nat.not_lt.mpr (Nat.le_of_lt hgt)), hgt,
            Nat.not_lt.mpr (Nat.le_of_lt hgt), hother.symm, Ne.symm hother]
  · intro su
    cases su <;> rfl

/-- C1 witness: the theorem instantiated at the concrete trickState, where
the AI's 9 of hearts beats the player's led 5 of hearts. -/
theorem evaluateTrick_winner_spec_witness :
    ∃ rec : TrickRecord,
      (trickState.evaluateTrick).1.trickHistory = trickState.trickHistory ++ [rec] ∧
      rec.leadCard = (⟨.hearts, .n5⟩ : Card) ∧ rec.followCard = (⟨.hearts, .n9⟩ : Card) ∧
      rec.leadPlayer = Player.player ∧
      ((⟨.hearts, .n9⟩ : Card).suit ≠ (⟨.hearts, .n5⟩ : Card).suit → rec.winner = Player.player) ∧
      ((⟨.hearts, .n9⟩ : Card).suit = (⟨.hearts, .n5⟩ : Card).suit →
        (⟨.hearts, .n9⟩ : Card) ≠ (⟨.hearts, .n5⟩ : Card) →
        ((rec.winner = Player.player ↔
            (⟨.hearts, .n9⟩ : Card).getValue < (⟨.hearts, .n5⟩ : Card).getValue) ∧
         (rec.winner = Player.player.other ↔
            (⟨.hearts, .n5⟩ : Card).getValue < (⟨.hearts, .n9⟩ : Card).getValue))) ∧
      (∀ su : Suit,
        ranksList.map (fun r => Card.getValue ⟨su, r⟩) =
          [2, 3, 4, 5, 6, 7, 8, 9, 10, 11, 12, 13, 14]) :=
  evaluateTrick_winner_spec trickState ⟨.hearts, .n5⟩ ⟨.hearts, .n9⟩ .player rfl rfl rfl

/-- C2: trick resolution changes a score only on trick 5, where exactly the
winner's score grows by one and the round ends; on tricks before the
fifth both scores are untouched and the winner merely becomes lead and
current player while the trick number advances by one. -/
theorem evaluateTrick_scoring_spec (s : GameState) (lc fc : Card) (lp : Player)
    (h1 : s.leadCard = some lc) (h2 : s.followCard = some fc)
    (h3 : s.leadPlayer = some lp) :
    (s.currentTrick = 5 →
      (s.evaluateTrick).1.gameActive = false ∧
      (trickWinner lc fc lp = .player →
        (s.evaluateTrick).1.playerScore = s.playerScore + 1 ∧
        (s.evaluateTrick).1.aiScore = s.aiScore) ∧
      (trickWinner lc fc lp = .ai →
        (s.evaluateTrick).1.aiScore = s.aiScore + 1 ∧
        (s.evaluateTrick).1.playerScore = s.playerScore)) ∧
    (s.currentTrick ≠ 5 →
      (s.evaluateTrick).1.playerScore = s.playerScore ∧
      (s.evaluateTrick).1.aiScore = s.aiScore ∧
      (s.evaluateTrick).1.leadPlayer = some (trickWinner lc fc lp) ∧
      (s.evaluateTrick).1.currentPlayer = some (trickWinner lc fc lp) ∧
      (s.evaluateTrick).1.currentTrick = s.currentTrick + 1) := by
  have hcases : trickWinner lc fc lp = .player ∨ trickWinner lc fc lp = .ai := by
    cases trickWinner lc fc lp <;> simp
  constructor
  · intro h5
    rcases hcases with hw | hw <;>
      simp [GameState.evaluateTrick, h1, h2, h3, h5, hw]
  · intro h5
    simp [GameState.evaluateTrick, h1, h2, h3, h5]

/-- C2 witness: the theorem instantiated at trickState (a trick-2
resolution): scores untouched, winner takes lead and turn, trick counter
moves to 3. -/
theorem evaluateTrick_scoring_spec_witness :
    (trickState.currentTrick = 5 →
      (trickState.evaluateTrick).1.gameActive = false ∧
      (trickWinner ⟨.hearts, .n5⟩ ⟨.hearts, .n9⟩ .player = .player →
        (trickState.evaluateTrick).1.playerScore = trickState.playerScore + 1 ∧
        (trickState.evaluateTrick).1.aiScore = trickState.aiScore) ∧
      (trickWinner ⟨.hearts, .n5⟩ ⟨.hearts, .n9⟩ .player = .ai →
        (trickState.evaluateTrick).1.aiScore = trickState.aiScore + 1 ∧
        (trickState.evaluateTrick).1.playerScore = trickState.playerScore)) ∧
    (trickState.currentTrick ≠ 5 →
      (trickState.evaluateTrick).1.playerScore = trickState.playerScore ∧
      (trickState.evaluateTrick).1.aiScore = trickState.aiScore ∧
      (trickState.evaluateTrick).1.leadPlayer =
        some (trickWinner ⟨.hearts, .n5⟩ ⟨.hearts, .n9⟩ .player) ∧
      (trickState.evaluateTrick).1.currentPlayer =
        some (trickWinner ⟨.hearts, .n5⟩ ⟨.hearts, .n9⟩ .player) ∧
      (trickState.evaluateTrick).1.currentTrick = trickState.currentTrick + 1) :=
  evaluateTrick_scoring_spec trickState ⟨.hearts, .n5⟩ ⟨.hearts, .n9⟩ .player rfl rfl rfl

/-- C3: getValidCards yields the full hand when leading, exactly the
same-suit subset when following with at least one card of the lead suit,
and the full hand otherwise. -/
theorem getValidCards_spec (s : GameState) (p : Player) :
    (s.leadCard = none → s.getValidCards p = handOf s p) ∧
    (∀ lc : Card, s.leadCard = some lc →
      ((handOf s p).filter (fun c => c.suit = lc.suit) ≠ [] →
        s.getValidCards p = (handOf s p).filter (fun c => c.suit = lc.suit)) ∧
      ((handOf s p).filter (fun c => c.suit = lc.suit) = [] →
        s.getValidCards p = handOf s p)) := by
  constructor
  · intro h
    simp [GameState.getValidCards, handOf, h]
  · intro lc h
    constructor
    · intro hne
      have : ((if p = .player then s.playerHand else s.aiHand).filter
          (fun c => c.suit = lc.suit)).length > 0 := by
        simp only [handOf] at hne
        exact List.length_pos.mpr hne
      simp [GameState.getValidCards, handOf, h, if_pos this]
    · intro heq
      have : ¬ ((if p = .player then s.playerHand else s.aiHand).filter
          (fun c => c.suit = lc.suit)).length > 0 := by
        simp only [handOf] at heq
        simp [heq]
      simp [GameState.getValidCards, handOf, h, if_neg this]

/-- A concrete following position: the AI holds the 9 of clubs and the 7
of diamonds against a led 5 of clubs. -/
def followState : GameState :=
  { GameState.new emptyStore with
      playerHand := [⟨.spades, .ace⟩, ⟨.spades, .king⟩]
      aiHand := [⟨.clubs, .n9⟩, ⟨.diamonds, .n7⟩]
      leadCard := some ⟨.clubs, .n5⟩
      leadPlayer := some .player
      currentPlayer := some .ai
      currentTrick := 2
      gameActive := true
      roundActive := true }

/-- C3 witness: at followState the AI's valid cards are exactly its clubs. -/
theorem getValidCards_spec_witness :
    followState.getValidCards .ai =
      (handOf followState .ai).filter (fun c => c.suit = Suit.clubs) := by
  have h := (getValidCards_spec followState .ai).2 ⟨.clubs, .n5⟩ rfl
  exact h.1 (by decide)

/-- C6: when canPlayCard rejects, playCard returns false and the whole
state is returned unchanged (the embedding is a total function, mirroring
the source's exception-free early return). -/
theorem playCard_illegal_noop (s : GameState) (card : Card) (p : Player)
    (h : s.canPlayCard card p = false) : s.playCard card p = (s, false) := by
  simp [GameState.playCard, h]

/-- C6 witness: playing out of turn at followState (it is the AI's turn)
is rejected with the state unchanged. -/
theorem playCard_illegal_noop_witness :
    followState.playCard ⟨.spades, .ace⟩ .player = (followState, false) :=
  playCard_illegal_noop followState ⟨.spades, .ace⟩ .player rfl

/-- C10: an empty hand qualifies for a redeal, because the spread
Math.max over no values is minus infinity, which is at most 9. -/
theorem handQualifiesForRedeal_empty : GameState.handQualifiesForRedeal [] = true := by
  decide

/-- The round reached from a fresh session by startNewRound on the
identity shuffle: player holds clubs 2..6, the AI clubs 7..jack. -/
def freshRound : GameState := (GameState.new emptyStore).startNewRound fullDeck

/-- C4 counterexample: in a reachable state, canPlayCard accepts a card
that is not in the acting player's hand (the 7 of clubs sits in the AI
hand, yet the leading player may "play" it): hand membership is never
checked. -/
theorem canPlayCard_not_in_hand_cex :
    Reachable freshRound ∧
    freshRound.currentPlayer = some Player.player ∧
    (⟨Suit.clubs, Rank.n7⟩ : Card) ∉ freshRound.playerHand ∧
    freshRound.canPlayCard ⟨Suit.clubs, Rank.n7⟩ Player.player = true :=
  ⟨Reachable.start (GameState.new emptyStore) fullDeck (List.Perm.refl fullDeck),
   rfl, by decide, rfl⟩

/-- C4 amended: canPlayCard rejects every out-of-turn attempt, but does
not check hand membership — on any in-turn lead it accepts any card
whatsoever, cards outside the hand included. -/
theorem canPlayCard_turn_only (s : GameState) (card : Card) (p : Player) :
    (s.currentPlayer ≠ some p → s.canPlayCard card p = false) ∧
    (s.currentPlayer = some p → s.leadCard = none → s.canPlayCard card p = true) := by
  constructor
  · intro h
    simp [GameState.canPlayCard, h]
  · intro h1 h2
    simp [GameState.canPlayCard, h1, h2]

/-- C4 amended witness: at freshRound the AI may not act (the player is
on turn), and the player may lead any card at all. -/
theorem canPlayCard_turn_only_witness :
    freshRound.canPlayCard ⟨Suit.clubs, Rank.n2⟩ Player.ai = false ∧
    freshRound.canPlayCard ⟨Suit.hearts, Rank.ace⟩ Player.player = true :=
  ⟨(canPlayCard_turn_only freshRound ⟨Suit.clubs, Rank.n2⟩ Player.ai).1 (by decide),
   (canPlayCard_turn_only freshRound ⟨Suit.hearts, Rank.ace⟩ Player.player).2 rfl rfl⟩

/-- C7: startNewRound hardcodes the starting leader.  Evaluating the code
at a second consecutive round (previous leader was the player) shows the
leader does not alternate and is never random: it is the player again,
while the remaining startNewRound effects (deal 5 and 5 off the shuffled
deck, reset of trick and lead state) do take place. -/
theorem startNewRound_leader_hardcoded :
    freshRound.leadPlayer = some Player.player ∧
    freshRound.currentPlayer = some Player.player ∧
    (freshRound.startNewRound fullDeck).leadPlayer = some Player.player ∧
    (freshRound.startNewRound fullDeck).currentPlayer = some Player.player ∧
    freshRound.playerHand = fullDeck.take 5 ∧
    freshRound.aiHand = (fullDeck.drop 5).take 5 ∧
    freshRound.currentTrick = 1 ∧
    freshRound.leadCard = none ∧
    freshRound.followCard = none ∧
    freshRound.trickHistory = [] :=
  ⟨rfl, rfl, rfl, rfl, rfl, rfl, rfl, rfl, rfl, rfl⟩

/-- The scoreGoal slot of loadSettings in isolation: installed from
parseInt when the stored string is truthy, untouched otherwise. -/
theorem loadSettings_scoreGoal_eq (s : GameState) (store : String → Option String) :
    (s.loadSettings store).scoreGoal =
      if jsTruthy (store "scoreGoal")
      then jsParseInt ((store "scoreGoal").getD "")
      else s.scoreGoal := by
  by_cases h1 : jsTruthy (store "aiDifficulty") <;>
    by_cases h2 : jsTruthy (store "cardBack") <;>
      by_cases h3 : jsTruthy (store "scoreGoal") <;>
        cases h4 : store "soundEnabled" <;>
          simp [GameState.loadSettings, h1, h2, h3, h4]

/-- A persisted settings store whose score goal entry is the non-numeric
string abc. -/
def badStore : String → Option String :=
  fun k => if k = "scoreGoal" then some "abc" else none

/-- C9 counterexample: loading a malformed (non-numeric) score-goal
string does not fall back to the default 5: parseInt produces NaN
(modelled none) and that NaN is installed in the game state, while a
truly absent entry does keep the default. -/
theorem loadSettings_malformed_goal_cex :
    (GameState.new badStore).scoreGoal = none ∧
    (GameState.new badStore).scoreGoal ≠ some 5 ∧
    (GameState.new emptyStore).scoreGoal = some 5 :=
  ⟨rfl, by decide, rfl⟩

/-- C9 amended: an absent score-goal entry falls back to the current
(default) value, but a present malformed entry is not treated as absent:
its parseInt result NaN is installed as the score goal. -/
theorem loadSettings_scoreGoal_amended (s : GameState) (store : String → Option String) :
    (store "scoreGoal" = none → (s.loadSettings store).scoreGoal = s.scoreGoal) ∧
    (∀ v : String, store "scoreGoal" = some v → v ≠ "" → jsParseInt v = none →
      (s.loadSettings store).scoreGoal = none) := by
  constructor
  · intro h
    rw [loadSettings_scoreGoal_eq]
    simp [h, jsTruthy]
  · intro v hv hne hbad
    rw [loadSettings_scoreGoal_eq]
    simp [hv, jsTruthy, hne, hbad]

/-- C9 amended witness: the theorem instantiated at the default state and
the abc store: the malformed entry installs NaN; on the empty store the
default survives. -/
theorem loadSettings_scoreGoal_amended_witness :
    ((GameState.new emptyStore).loadSettings badStore).scoreGoal = none ∧
    ((GameState.new emptyStore).loadSettings emptyStore).scoreGoal =
      (GameState.new emptyStore).scoreGoal :=
  ⟨(loadSettings_scoreGoal_amended (GameState.new emptyStore) badStore).2 "abc" rfl
      (by decide) (by decide),
   (loadSettings_scoreGoal_amended (GameState.new emptyStore) emptyStore).1 rfl⟩

/-- Removing a present card shortens the hand by exactly one. -/
theorem removeFirstCard_length (l : List Card) (c : Card) (h : c ∈ l) :
    (removeFirstCard l c).length + 1 = l.length := by
  induction l with
  | nil => simp at h
  | cons d ds ih =>
    by_cases hd : d.suit = c.suit ∧ d.rank = c.rank
    · simp [removeFirstCard, hd]
    · have hne : d ≠ c := fun he => hd (by subst he; exact ⟨rfl, rfl⟩)
      have hmem : c ∈ ds := by
        rcases List.mem_cons.mp h with h1 | h1
        · exact absurd h1.symm hne
        · exact h1
      simp [removeFirstCard, hd, ih hmem]


/-- Explicit form of a successful lead play: the card leaves the acting
hand, is installed as lead card with its player as lead player, joins
playedCards, and the turn flips to the other side. -/
theorem playCard_lead_eq (s : GameState) (card : Card) (p : Player)
    (hcan : s.canPlayCard card p = true) (hlead : s.leadCard = none) :
    (s.playCard card p).1 =
      { s with
        playerHand := if p = .player then removeFirstCard s.playerHand card else s.playerHand,
        aiHand := if p = .ai then removeFirstCard s.aiHand card else s.aiHand,
        leadCard := some card,
        leadPlayer := some p,
        playedCards := s.playedCards ++ [(card, p)],
        currentPlayer := some p.other } := by
  cases p <;> simp [GameState.playCard, hcan, hlead]

/-- Explicit form of a successful follow play: the card leaves the acting
hand, becomes the follow card, joins playedCards, and evaluateTrick runs
synchronously, appending the resolved record and then either scoring
trick 5 or handing lead and turn to the winner. -/
theorem playCard_follow_eq (s : GameState) (card : Card) (p : Player) (lc : Card)
    (lp : Player) (hcan : s.canPlayCard card p = true) (hlead : s.leadCard = some lc)
    (hlp : s.leadPlayer = some lp) :
    (s.playCard card p).1 =
      (if s.currentTrick = 5 then
        (if trickWinner lc card lp = .player then
          { s with
            playerHand := if p = .player then removeFirstCard s.playerHand card else s.playerHand,
            aiHand := if p = .ai then removeFirstCard s.aiHand card else s.aiHand,
            followCard := some card,
            playedCards := s.playedCards ++ [(card, p)],
            trickHistory := s.trickHistory ++
              [{ trickNumber := s.currentTrick, leadCard := lc, followCard := card,
                 leadPlayer := lp, winner := trickWinner lc card lp }],
            playerScore := s.playerScore + 1,
            gameActive := false }
         else
          { s with
            playerHand := if p = .player then removeFirstCard s.playerHand card else s.playerHand,
            aiHand := if p = .ai then removeFirstCard s.aiHand card else s.aiHand,
            followCard := some card,
            playedCards := s.playedCards ++ [(card, p)],
            trickHistory := s.trickHistory ++
              [{ trickNumber := s.currentTrick, leadCard := lc, followCard := card,
                 leadPlayer := lp, winner := trickWinner lc card lp }],
            aiScore := s.aiScore + 1,
            gameActive := false })
      else
        { s with
          playerHand := if p = .player then removeFirstCard s.playerHand card else s.playerHand,
          aiHand := if p = .ai then removeFirstCard s.aiHand card else s.aiHand,
          followCard := some card,
          playedCards := s.playedCards ++ [(card, p)],
          trickHistory := s.trickHistory ++
            [{ trickNumber := s.currentTrick, leadCard := lc, followCard := card,
               leadPlayer := lp, winner := trickWinner lc card lp }],
          leadPlayer := some (trickWinner lc card lp),
          currentPlayer := some (trickWinner lc card lp),
          currentTrick := s.currentTrick + 1 }) := by
  cases p <;> by_cases h5 : s.currentTrick = 5 <;>
    by_cases hw : trickWinner lc card lp = .player <;>
      simp [GameState.playCard, GameState.evaluateTrick, hcan, hlead, hlp, h5, hw]

/-- The round invariant carried through the reachability induction: card
conservation (each of the 10 dealt cards is in a hand, in a resolved
trick, or in flight), the trick counter tracking the history length
while the round is active, exactly five resolved tricks once it is
inactive, the shape of playedCards relative to the table slots, and a
non-null lead player. -/
def RoundInv (s : GameState) : Prop :=
  s.playerHand.length + s.aiHand.length + 2 * s.trickHistory.length + inFlightCards s = 10 ∧
  (s.gameActive = true → s.currentTrick = s.trickHistory.length + 1 ∧
    s.trickHistory.length ≤ 4) ∧
  (s.gameActive = false → s.trickHistory.length = 5) ∧
  (s.followCard = none →
    (s.leadCard = none ∧ s.playedCards = []) ∨
    (s.leadCard ≠ none ∧ s.playedCards.length = 1)) ∧
  s.leadPlayer ≠ none

/-- Every reachable state satisfies the round invariant. -/
theorem reachable_inv (s : GameState) (h : Reachable s) : RoundInv s := by
  induction h with
  | start s0 d hd =>
    have hlen : d.length = 52 := by rw [hd.length_eq]; rfl
    refine ⟨?_, ?_, ?_, ?_, ?_⟩
    · simp only [GameState.startNewRound, inFlightCards, List.length_take,
        List.length_drop, List.length_nil, hlen]
      omega
    · intro _
      simp [GameState.startNewRound]
    · intro hga
      simp [GameState.startNewRound] at hga
    · intro _
      left
      simp [GameState.startNewRound]
    · simp [GameState.startNewRound]
  | play s0 card p hs hmem hclear ih =>
    by_cases hcan : s0.canPlayCard card p = true
    · obtain ⟨htot, hact, hinact, hfcinv, hlp⟩ := ih
      have htot2 : s0.playerHand.length + s0.aiHand.length +
          2 * s0.trickHistory.length + s0.playedCards.length = 10 := by
        simpa [inFlightCards, hclear] using htot
      obtain ⟨lp, hlp2⟩ : ∃ lp, s0.leadPlayer = some lp := by
        cases hx : s0.leadPlayer
        · exact absurd hx hlp
        · exact ⟨_, rfl⟩
      have hrmP : p = .player →
          (removeFirstCard s0.playerHand card).length + 1 = s0.playerHand.length := by
        intro hp
        exact removeFirstCard_length s0.playerHand card (by simpa [handOf, hp] using hmem)
      have hrmA : p = .ai →
          (removeFirstCard s0.aiHand card).length + 1 = s0.aiHand.length := by
        intro hp
        exact removeFirstCard_length s0.aiHand card (by simpa [handOf, hp] using hmem)
      cases hlead : s0.leadCard with
      | none =>
        have hpc : s0.playedCards = [] := by
          rcases hfcinv hclear with ⟨_, h⟩ | ⟨hne, _⟩
          · exact h
          · exact absurd hlead hne
        have hpcLen : s0.playedCards.length = 0 := by simp [hpc]
        rw [playCard_lead_eq s0 card p hcan hlead]
        refine ⟨?_, ?_, ?_, ?_, ?_⟩
        · simp only [inFlightCards, hclear, List.length_append, List.length_cons,
            List.length_nil]
          cases p with
          | player => simp only [reduceCtorEq, eq_self_iff_true, if_true, if_false]
                      have := hrmP rfl
                      omega
          | ai => simp only [reduceCtorEq, eq_self_iff_true, if_true, if_false]
                  have := hrmA rfl
                  omega
        · intro hga
          exact hact hga
        · intro hga
          exact hinact hga
        · intro _
          right
          exact ⟨by simp, by simp [hpc]⟩
        · simp
      | some lc =>
        have hplen : s0.playedCards.length = 1 := by
          rcases hfcinv hclear with ⟨hl, _⟩ | ⟨_, h⟩
          · rw [hlead] at hl
            cases hl
          · exact h
        have hactive : s0.gameActive = true := by
          by_contra hga
          have hga2 : s0.gameActive = false := by simpa using hga
          have h5len := hinact hga2
          omega
        obtain ⟨hct, hle⟩ := hact hactive
        rw [playCard_follow_eq s0 card p lc lp hcan hlead hlp2]
        by_cases h5 : s0.currentTrick = 5
        · have hh4 : s0.trickHistory.length = 4 := by omega
          rw [if_pos h5]
          by_cases hw : trickWinner lc card lp = .player
        --
          · rw [if_pos hw]
            refine ⟨?_, ?_, ?_, ?_, ?_⟩
            · simp only [inFlightCards, List.length_append, List.length_cons,
                List.length_nil]
              cases p with
              | player => simp only [reduceCtorEq, eq_self_iff_true, if_true, if_false]
                          have := hrmP rfl
                          omega
              | ai => simp only [reduceCtorEq, eq_self_iff_true, if_true, if_false]
                      have := hrmA rfl
                      omega
            · intro hga
              simp at hga
            · intro _
              simp [hh4]
            · intro hx
              simp at hx
            · simpa using hlp
          · rw [if_neg hw]
            refine ⟨?_, ?_, ?_, ?_, ?_⟩
            · simp only [inFlightCards, List.length_append, List.length_cons,
                List.length_nil]
              cases p with
              | player => simp only [reduceCtorEq, eq_self_iff_true, if_true, if_false]
                          have := hrmP rfl
                          omega
              | ai => simp only [reduceCtorEq, eq_self_iff_true, if_true, if_false]
                      have := hrmA rfl
                      omega
            · intro hga
              simp at hga
            · intro _
              simp [hh4]
            · intro hx
              simp at hx
            · simpa using hlp
        · rw [if_neg h5]
          refine ⟨?_, ?_, ?_, ?_, ?_⟩
          · simp only [inFlightCards, List.length_append, List.length_cons,
              List.length_nil]
            cases p with
            | player => simp only [reduceCtorEq, eq_self_iff_true, if_true, if_false]
                        have := hrmP rfl
                        omega
            | ai => simp only [reduceCtorEq, eq_self_iff_true, if_true, if_false]
                    have := hrmA rfl
                    omega
          · intro _
            constructor
            · simp only [List.length_append, List.length_cons, List.length_nil]
              omega
            · simp only [List.length_append, List.length_cons, List.length_nil]
              omega
          · intro hga
            rw [show ({ s0 with
                playerHand := if p = .player then removeFirstCard s0.playerHand card
                  else s0.playerHand,
                aiHand := if p = .ai then removeFirstCard s0.aiHand card else s0.aiHand,
                followCard := some card,
                playedCards := s0.playedCards ++ [(card, p)],
                trickHistory := s0.trickHistory ++
                  [{ trickNumber := s0.currentTrick, leadCard := lc, followCard := card,
                     leadPlayer := lp, winner := trickWinner lc card lp }],
                leadPlayer := some (trickWinner lc card lp),
                currentPlayer := some (trickWinner lc card lp),
                currentTrick := s0.currentTrick + 1 } : GameState).gameActive
              = s0.gameActive from rfl] at hga
            rw [hactive] at hga
            cases hga
          · intro hx
            simp at hx
          · simp
    · have hcan2 : s0.canPlayCard card p = false := by simpa using hcan
      simpa [GameState.playCard, hcan2] using ih
  | clear s0 hs hf ih =>
    obtain ⟨htot, hact, hinact, hfcinv, hlp⟩ := ih
    obtain ⟨fc, hfc⟩ : ∃ fc, s0.followCard = some fc := by
      cases hx : s0.followCard
      · exact absurd hx hf
      · exact ⟨_, rfl⟩
    have htot2 : s0.playerHand.length + s0.aiHand.length +
        2 * s0.trickHistory.length = 10 := by
      simpa [inFlightCards, hfc] using htot
    refine ⟨?_, ?_, ?_, ?_, ?_⟩
    · simpa [GameState.clearTrick, inFlightCards] using htot2
    · intro hga
      exact hact hga
    · intro hga
      exact hinact hga
    · intro _
      left
      simp [GameState.clearTrick]
    · simpa [GameState.clearTrick] using hlp

/-- C5: in every reachable state of a round before any redeal, hand sizes
plus twice the resolved tricks plus the in-flight cards of the current
unresolved trick total exactly 10, and once the round has ended
(gameActive false) the history holds exactly five resolved tricks. -/
theorem round_card_conservation (s : GameState) (h : Reachable s) :
    s.playerHand.length + s.aiHand.length + 2 * s.trickHistory.length +
      inFlightCards s = 10 ∧
    (s.gameActive = false → s.trickHistory.length = 5) :=
  ⟨(reachable_inv s h).1, (reachable_inv s h).2.2.1⟩

/-- C5 witness: the theorem instantiated at the freshly dealt round on the
identity shuffle. -/
theorem round_card_conservation_witness :
    freshRound.playerHand.length + freshRound.aiHand.length +
      2 * freshRound.trickHistory.length + inFlightCards freshRound = 10 ∧
    (freshRound.gameActive = false → freshRound.trickHistory.length = 5) :=
  round_card_conservation freshRound
    (Reachable.start (GameState.new emptyStore) fullDeck (List.Perm.refl fullDeck))

/-- The reduce inside getLowestCard returns a member of the accumulator
cons list that is value-minimal. -/
theorem foldl_lowest_spec (cs : List Card) (a : Card) :
    (cs.foldl (fun lowest card =>
      if card.getValue < lowest.getValue then card else lowest) a) ∈ a :: cs ∧
    (cs.foldl (fun lowest card =>
      if card.getValue < lowest.getValue then card else lowest) a).getValue ≤ a.getValue ∧
    ∀ c ∈ cs, (cs.foldl (fun lowest card =>
      if card.getValue < lowest.getValue then card else lowest) a).getValue ≤ c.getValue := by
  induction cs generalizing a with
  | nil => simp
  | cons d ds ih =>
    simp only [List.foldl_cons]
    by_cases hd : d.getValue < a.getValue
    · rw [if_pos hd]
      obtain ⟨h1, h2, h3⟩ := ih d
      refine ⟨?_, le_trans h2 (Nat.le_of_lt hd), ?_⟩
      · simp only [List.mem_cons] at h1 ⊢
        tauto
      · intro c hc
        rcases List.mem_cons.mp hc with rfl | hc
        · exact h2
        · exact h3 c hc
    · rw [if_neg hd]
      obtain ⟨h1, h2, h3⟩ := ih a
      refine ⟨?_, h2, ?_⟩
      · simp only [List.mem_cons] at h1 ⊢
        tauto
      · intro c hc
        rcases List.mem_cons.mp hc with rfl | hc
        · exact le_trans h2 (Nat.le_of_not_lt hd)
        · exact h3 c hc

/-- getLowestCard returns a member of the list of minimal value. -/
theorem getLowestCard_spec (l : List Card) (m : Card) (h : getLowestCard l = some m) :
    m ∈ l ∧ ∀ c ∈ l, m.getValue ≤ c.getValue := by
  cases l with
  | nil => cases h
  | cons a cs =>
    simp only [getLowestCard, Option.some.injEq] at h
    subst h
    obtain ⟨h1, h2, h3⟩ := foldl_lowest_spec cs a
    refine ⟨h1, ?_⟩
    intro c hc
    rcases List.mem_cons.mp hc with rfl | hc
    · exact h2
    · exact h3 c hc

/-- C8: following on tricks 1-4 under the grandmaster strategy, with at
least one same-suit card beating the lead value in hand, the AI plays a
winning same-suit card of minimal value — it never ducks a winnable
trick. -/
theorem grandmaster_never_ducks (s : GameState) (lc : Card)
    (hlead : s.leadCard = some lc) (ht1 : 1 ≤ s.currentTrick) (ht4 : s.currentTrick ≤ 4)
    (hw : s.aiHand.filter (fun c => c.suit = lc.suit ∧ c.getValue > lc.getValue) ≠ []) :
    ∃ w : Card, chooseCardGrandmaster s = some w ∧
      w ∈ s.aiHand.filter (fun c => c.suit = lc.suit ∧ c.getValue > lc.getValue) ∧
      ∀ c ∈ s.aiHand.filter (fun c => c.suit = lc.suit ∧ c.getValue > lc.getValue),
        w.getValue ≤ c.getValue := by
  have h5 : ¬ s.currentTrick = 5 := by omega
  have hWeq : s.aiHand.filter (fun c => c.suit = lc.suit ∧ c.getValue > lc.getValue)
      = (s.aiHand.filter (fun c => c.suit = lc.suit)).filter
          (fun c => c.getValue > lc.getValue) := by
    rw [List.filter_filter]
    apply List.filter_congr
    intro a _
    by_cases h1 : a.suit = lc.suit <;> by_cases h2 : a.getValue > lc.getValue <;>
      simp [h1, h2]
  have hSSne : s.aiHand.filter (fun c => c.suit = lc.suit) ≠ [] := by
    intro hnil
    apply hw
    rw [hWeq, hnil]
    rfl
  have hSSpos : (s.aiHand.filter (fun c => c.suit = lc.suit)).length > 0 :=
    List.length_pos.mpr hSSne
  have hvalid : s.getValidCards .ai = s.aiHand.filter (fun c => c.suit = lc.suit) := by
    simp [GameState.getValidCards, hlead, hSSpos]
  have hidem : (s.aiHand.filter (fun c => c.suit = lc.suit)).filter
      (fun c => c.suit = lc.suit) = s.aiHand.filter (fun c => c.suit = lc.suit) := by
    rw [List.filter_filter]
    apply List.filter_congr
    intro a _
    by_cases h1 : a.suit = lc.suit <;> simp [h1]
  have hWpos : ((s.aiHand.filter (fun c => c.suit = lc.suit)).filter
      (fun c => c.getValue > lc.getValue)).length > 0 := by
    rw [← hWeq]
    exact List.length_pos.mpr hw
  have hchoose : chooseCardGrandmaster s =
      grandmasterFollow s (s.aiHand.filter (fun c => c.suit = lc.suit)) := by
    simp [chooseCardGrandmaster, h5, hlead, hvalid]
  have hfollow : grandmasterFollow s (s.aiHand.filter (fun c => c.suit = lc.suit)) =
      getLowestCard (s.aiHand.filter
        (fun c => c.suit = lc.suit ∧ c.getValue > lc.getValue)) := by
    simp only [grandmasterFollow, hlead]
    rw [hidem]
    rw [if_pos hSSpos]
    rw [if_pos hWpos]
    rw [← hWeq]
  obtain ⟨m, hm⟩ : ∃ m, getLowestCard (s.aiHand.filter
      (fun c => c.suit = lc.suit ∧ c.getValue > lc.getValue)) = some m := by
    cases hl : s.aiHand.filter (fun c => c.suit = lc.suit ∧ c.getValue > lc.getValue) with
    | nil => exact absurd hl hw
    | cons a cs => exact ⟨_, rfl⟩
  obtain ⟨hmem2, hmin⟩ := getLowestCard_spec _ m hm
  refine ⟨m, ?_, hmem2, hmin⟩
  rw [hchoose, hfollow, hm]

/-- C8 witness: the spec's concrete scenario — the AI holds the 9 of clubs
and the 7 of diamonds, following a led 5 of clubs on trick 2 — forces the
grandmaster strategy to play the 9 of clubs. -/
theorem grandmaster_never_ducks_witness :
    chooseCardGrandmaster followState = some (⟨Suit.clubs, Rank.n9⟩ : Card) := by
  obtain ⟨w, hw1, hw2, _⟩ := grandmaster_never_ducks followState ⟨.clubs, .n5⟩ rfl
    (by decide) (by decide) (by decide)
  have hfl : followState.aiHand.filter
      (fun c => c.suit = (⟨Suit.clubs, Rank.n5⟩ : Card).suit ∧
        c.getValue > (⟨Suit.clubs, Rank.n5⟩ : Card).getValue) =
      [⟨Suit.clubs, Rank.n9⟩] := rfl
  rw [hfl] at hw2
  rw [List.mem_singleton.mp hw2] at hw1
  exact hw1
